import Mathlib

/-!
Verification of the kana-quiz engine: the greedy romaji answer matcher, the
FSRS review ledger and grading, the Wilson-confidence weighted selection, the
enemy generator, and the turn-based combat state machine, shallowly embedded
from the TypeScript sources (hooks/useAnswerChecking, utils/fsrs,
utils/promptUtils, constants, components/KanaQuiz).
-/

namespace KanaSpec

/-- Catalog entry for a kana character: stable id, glyph and the accepted
romaji spellings, each spelling a list of characters. -/
structure KanaCharacter where
  id : String
  character : String
  romaji : List (List Char)
deriving DecidableEq

/-- Normalization applied to user input before matching: trim surrounding
whitespace, then lowercase (JS `input.trim().toLowerCase()`). -/
def normalize (input : List Char) : List Char :=
  (((input.dropWhile Char.isWhitespace).reverse.dropWhile Char.isWhitespace).reverse).map
    Char.toLower

/-- Insert a spelling into a list already sorted by descending length, after
every strictly longer spelling and before the rest, so that equal-length
spellings keep their original order (JS `Array.prototype.sort` is stable). -/
def insertByLenDesc (r : List Char) : List (List Char) → List (List Char)
  | [] => [r]
  | x :: xs => if r.length < x.length then x :: insertByLenDesc r xs else r :: x :: xs

/-- Stable sort by descending length (JS `sort((a, b) => b.length - a.length)`
on the lowercased romaji). -/
def sortByLenDesc : List (List Char) → List (List Char)
  | [] => []
  | r :: rs => insertByLenDesc r (sortByLenDesc rs)

/-- Lowercased accepted romaji of a kana, sorted longest first, exactly as the
matcher builds them before forming its anchored alternation pattern. -/
def sortedLowerRomaji (kana : KanaCharacter) : List (List Char) :=
  sortByLenDesc (kana.romaji.map (List.map Char.toLower))

/-- Semantics of matching the anchored alternation pattern built from the
sorted spellings: the first alternative in order that is a prefix of the
remaining input, if any. -/
def firstPrefixMatch : List (List Char) → List Char → Option (List Char)
  | [], _ => none
  | r :: rs, input => if r.isPrefixOf input then some r else firstPrefixMatch rs input

/-- Longest accepted romaji length of a kana
(JS `Math.max(...kana.romaji.map((r) => r.length))`). -/
def maxRomajiLength (kana : KanaCharacter) : ℕ :=
  (kana.romaji.map List.length).foldr max 0

/-- One matching step of the answer matcher for one expected kana at cursor
`idx`: on a match, advance the cursor by the matched length; on a failure,
advance by `max 1 (min (idx + maxRomajiLength) inputLength - idx)`. -/
def matchStep (kana : KanaCharacter) (input : List Char) (idx : ℕ) : Bool × ℕ :=
  match firstPrefixMatch (sortedLowerRomaji kana) (input.drop idx) with
  | some r => (true, idx + r.length)
  | none =>
    let endIndex := min (idx + maxRomajiLength kana) input.length
    (false, idx + max 1 (endIndex - idx))

/-- The matcher's loop over the expected kana sequence, threading the input
cursor; returns the per-character match flags and the final cursor. -/
def validateLoop (prompt : List KanaCharacter) (input : List Char) (idx : ℕ) :
    List Bool × ℕ :=
  match prompt with
  | [] => ([], idx)
  | kana :: rest =>
    let step := matchStep kana input idx
    let restOut := validateLoop rest input step.2
    (step.1 :: restOut.1, restOut.2)

/-- `validateInputWithDetails` from hooks/useAnswerChecking (the validation
variant): `allCorrect` requires every kana to have matched and the cursor to
have consumed the whole normalized input. -/
def validateInputWithDetails (currentPrompt : List KanaCharacter) (input : List Char) :
    Bool × List Bool :=
  if currentPrompt.length = 0 then (false, [])
  else
    let normalizedInput := normalize input
    if normalizedInput.length = 0 then (false, [])
    else
      let out := validateLoop currentPrompt normalizedInput 0
      (out.1.all id && decide (out.2 = normalizedInput.length), out.1)

/-- `checkAnswers` core from hooks/useAnswerChecking.ts (same in
components/KanaQuiz.tsx): `none` when the submission is ignored (empty prompt
or blank input), otherwise `(allCorrect, correctCount)`; here `allCorrect`
only requires every kana to have matched, with no check that the cursor
consumed the entire input. -/
def checkAnswers (currentPrompt : List KanaCharacter) (input : List Char) :
    Option (Bool × ℕ) :=
  if currentPrompt.length = 0 then none
  else
    let normalizedInput := normalize input
    if normalizedInput.length = 0 then none
    else
      let out := validateLoop currentPrompt normalizedInput 0
      some (out.1.all id, (out.1.filter id).length)

/-- A chosen spelling for a kana that is an accepted lowercased spelling of
maximal length among the kana's accepted spellings. -/
def MaxSpelling (kana : KanaCharacter) (s : List Char) : Prop :=
  s ∈ kana.romaji.map (List.map Char.toLower) ∧
    ∀ r ∈ kana.romaji.map (List.map Char.toLower), r.length ≤ s.length

/-- Concrete kana accepting the single spelling "a". -/
def kanaA : KanaCharacter := ⟨"a", "A", [['a']]⟩

/-- Concrete kana accepting the spellings "a" and "aa". -/
def kanaDouble : KanaCharacter := ⟨"c1", "X", [['a'], ['a', 'a']]⟩

/-- Concrete kana accepting only the spelling "a". -/
def kanaSingle : KanaCharacter := ⟨"c2", "Y", [['a']]⟩

/-- Enemy stats: health pool and the number of attack-phase attempts between
enemy attacks (types/progress.ts `EnemyStats`). -/
structure EnemyStats where
  health : ℤ
  attack : ℤ
deriving DecidableEq

/-- `generateNewEnemy` from utils/promptUtils.ts (same in KanaQuiz.tsx):
health `⌊r1 * 6⌋ + 5` and attack `⌊r2 * 3⌋ + 2` for two uniform draws
`r1, r2 ∈ [0, 1)` of `Math.random()`. -/
def generateNewEnemy (r1 r2 : ℚ) : EnemyStats :=
  { health := ⌊r1 * 6⌋ + 5
    attack := ⌊r2 * 3⌋ + 2 }

/-- Attainability of a health value from some uniform draw in `[0, 1)`. -/
def healthAttainable (h : ℤ) : Prop :=
  ∃ r : ℚ, 0 ≤ r ∧ r < 1 ∧ (generateNewEnemy r 0).health = h

/-- Combo tier configuration (constants.ts `ComboConfig`). -/
structure ComboConfig where
  threshold : ℤ
  multiplier : ℚ
  timerMs : ℤ
deriving DecidableEq

/-- Combo tiers, sorted by descending threshold (constants.ts
`COMBO_CONFIGS`). -/
def COMBO_CONFIGS : List ComboConfig :=
  [⟨5, 2, 3000⟩, ⟨3, 3 / 2, 5000⟩, ⟨0, 1, 7000⟩]

/-- `getComboConfig` from constants.ts: the first tier whose threshold the
combo count reaches, falling back to the last tier. -/
def getComboConfig (comboCount : ℤ) : ComboConfig :=
  match COMBO_CONFIGS.find? (fun config => config.threshold ≤ comboCount) with
  | some config => config
  | none => COMBO_CONFIGS.getLastD ⟨0, 1, 7000⟩

/-- `getComboMultiplier` from KanaQuiz.tsx. -/
def getComboMultiplier (comboCount : ℤ) : ℚ :=
  (getComboConfig comboCount).multiplier

/-- Prompt phase. -/
inductive PromptType where
  | attack
  | defense
deriving DecidableEq

/-- Combat-relevant state of one game session (the `useState` fields of
KanaQuiz.tsx together with the enemy's health bar from Enemy.tsx;
`hasPrompt` stands for `currentPrompt.length > 0`). -/
structure GameState where
  currentEnemy : EnemyStats
  currentHealth : ℤ
  playerLives : ℤ
  promptAttempt : ℤ
  promptType : PromptType
  isGameOver : Bool
  enemyDefeated : Bool
  enemyWillDie : Bool
  combo : ℤ
  enemiesDefeated : ℤ
  hasPrompt : Bool
deriving DecidableEq

/-- Initial session state: fresh enemy at full health, 3 lives, attempt 0,
attack phase, no flags set, first prompt generated. -/
def initState (enemy : EnemyStats) : GameState :=
  { currentEnemy := enemy
    currentHealth := enemy.health
    playerLives := 3
    promptAttempt := 0
    promptType := PromptType.attack
    isGameOver := false
    enemyDefeated := false
    enemyWillDie := false
    combo := 0
    enemiesDefeated := 0
    hasPrompt := true }

/-- Combat effect of one answer (the attack/defense branches of
KanaQuiz.tsx `checkAnswers`, with the `playerAttack` / `enemyAttack` timer
callbacks and Enemy.tsx `playHit` / `heal` applied synchronously). -/
def applyCombatResult (allCorrect : Bool) (s : GameState) : GameState :=
  if s.promptType = PromptType.attack then
    if allCorrect then
      let newCombo := s.combo + 1
      let damage : ℤ := ⌈(1 : ℚ) * getComboMultiplier newCombo⌉
      let willDie : Bool := decide (s.currentHealth - damage ≤ 0)
      { s with
        combo := newCombo
        enemyWillDie := willDie
        currentHealth := max 0 (s.currentHealth - damage)
        enemyDefeated := if willDie then true else s.enemyDefeated
        hasPrompt := if willDie then false else s.hasPrompt }
    else
      { s with
        combo := 0
        currentHealth := min s.currentEnemy.health (s.currentHealth + 1) }
  else
    if allCorrect then
      { s with combo := s.combo + 1 }
    else
      { s with
        combo := 0
        playerLives := s.playerLives - 1
        isGameOver := if s.playerLives - 1 ≤ 0 then true else s.isGameOver }

/-- Prompt-regeneration effect (KanaQuiz.tsx / usePromptGeneration): skipped
while the enemy is (about to be) defeated, otherwise the next prompt's phase
is defense iff the attempt counter is positive and divisible by the current
enemy's attack threshold. -/
def regeneratePrompt (s : GameState) : GameState :=
  if s.enemyDefeated = true ∨ s.enemyWillDie = true then s
  else
    let newType :=
      if 0 < s.promptAttempt ∧ s.promptAttempt % s.currentEnemy.attack = 0 then
        PromptType.defense
      else PromptType.attack
    { s with promptType := newType, hasPrompt := true }

/-- One answer submission (KanaQuiz.tsx `checkAnswers`): guarded no-op while
there is no live prompt or the game is over or the enemy is (about to be)
defeated; otherwise the attempt counter is incremented, the combat result is
applied, and the next prompt is regenerated. -/
def submitAnswer (allCorrect : Bool) (s : GameState) : GameState :=
  if s.hasPrompt = false ∨ s.isGameOver = true ∨ s.enemyDefeated = true ∨
      s.enemyWillDie = true then s
  else
    regeneratePrompt
      (applyCombatResult allCorrect { s with promptAttempt := s.promptAttempt + 1 })

/-- Enemy-defeat respawn (the 2-second timeout of KanaQuiz.tsx): a freshly
generated enemy replaces the old one wholesale, the attempt counter resets,
the phase returns to attack, the defeat flags clear, the tally increments and
a new prompt is generated. -/
def spawnNewEnemy (newEnemy : EnemyStats) (s : GameState) : GameState :=
  if s.enemyDefeated = true then
    { s with
      currentEnemy := newEnemy
      currentHealth := newEnemy.health
      promptAttempt := 0
      promptType := PromptType.attack
      enemyDefeated := false
      enemyWillDie := false
      enemiesDefeated := s.enemiesDefeated + 1
      hasPrompt := true }
  else s

/-- Mana-timer expiry (useManaTimer): the combo resets, nothing else moves. -/
def comboTimerExpire (s : GameState) : GameState :=
  { s with combo := 0 }

/-- Events driving the combat state machine. -/
inductive GameEvent where
  | answer (allCorrect : Bool)
  | respawn (newEnemy : EnemyStats)
  | timerExpire

/-- Apply one event to the session state. -/
def applyEvent : GameEvent → GameState → GameState
  | GameEvent.answer b, s => submitAnswer b s
  | GameEvent.respawn e, s => spawnNewEnemy e s
  | GameEvent.timerExpire, s => comboTimerExpire s

/-- States reachable from some initial session state by any event sequence. -/
inductive Reachable : GameState → Prop where
  | init (enemy : EnemyStats) : Reachable (initState enemy)
  | step (s : GameState) (ev : GameEvent) : Reachable s → Reachable (applyEvent ev s)

/-- Concrete enemy for the reachability witnesses: health 5, attack
threshold 2. -/
def enemyW : EnemyStats := ⟨5, 2⟩

/-- Concrete reachable state sitting at a defense prompt: two incorrect
attack answers against `enemyW` bring the attempt counter to 2, a multiple of
the attack threshold. -/
def defenseStateW : GameState :=
  applyEvent (GameEvent.answer false) (applyEvent (GameEvent.answer false) (initState enemyW))

/-- Per-character ledger card (types/progress.ts `KanaCard`): opaque scheduler
card state `card : σ`, character id, and the optional review timestamp and
shown/correct tallies (absent fields read as 0 in the source). -/
structure KanaCard (σ : Type) where
  card : σ
  kanaId : String
  lastReview : Option ℤ
  totalShown : Option ℕ
  totalCorrect : Option ℕ

/-- Performance classification of `getPerformanceHistory`. -/
inductive Performance where
  | positive
  | neutral
  | negative
deriving DecidableEq

/-- `getPerformanceHistory` from utils/fsrs.ts: neutral under 3 reviews, else
positive for accuracy at least 0.8, negative below 0.5, neutral between. -/
def getPerformanceHistory {σ : Type} (kanaCard : KanaCard σ) : Performance :=
  let totalShown := kanaCard.totalShown.getD 0
  let totalCorrect := kanaCard.totalCorrect.getD 0
  if totalShown < 3 then Performance.neutral
  else
    let accuracy : ℚ := (totalCorrect : ℚ) / (totalShown : ℚ)
    if 4 / 5 ≤ accuracy then Performance.positive
    else if accuracy < 1 / 2 then Performance.negative
    else Performance.neutral

/-- Grade sent to the scheduler by `reviewKana`: 1 = again, 2 = hard,
3 = good, 4 = easy. -/
def reviewGrade {σ : Type} (kanaCard : KanaCard σ) (isCorrect : Bool) : ℕ :=
  if isCorrect then
    match getPerformanceHistory kanaCard with
    | Performance.positive => 4
    | Performance.negative => 2
    | Performance.neutral => 3
  else 1

/-- `reviewKana` from utils/fsrs.ts: pick the grade, advance the scheduler
card through the external scheduler (`repeatFn` models
`scheduler.repeat(card, now)[grade].card`), stamp the review time and bump the
tallies. -/
def reviewKana {σ : Type} (repeatFn : σ → ℤ → ℕ → σ) (kanaCard : KanaCard σ)
    (isCorrect : Bool) (now : ℤ) : KanaCard σ :=
  { kanaCard with
    card := repeatFn kanaCard.card now (reviewGrade kanaCard isCorrect)
    lastReview := some now
    totalShown := some (kanaCard.totalShown.getD 0 + 1)
    totalCorrect := some (kanaCard.totalCorrect.getD 0 + (if isCorrect then 1 else 0)) }

/-- Grade rule exactly as the specification words it: the lowest grade on any
incorrect answer; when correct, easy for `timesShown ≥ 3` and accuracy at
least 0.8, hard for `timesShown ≥ 3` and accuracy below 0.5, and good in
every other case (including `timesShown < 3`). -/
def gradeSpec {σ : Type} (kanaCard : KanaCard σ) (isCorrect : Bool) : ℕ :=
  if ¬ isCorrect then 1
  else if 3 ≤ kanaCard.totalShown.getD 0 ∧
      (4 : ℚ) / 5 ≤ (kanaCard.totalCorrect.getD 0 : ℚ) / (kanaCard.totalShown.getD 0 : ℚ) then 4
  else if 3 ≤ kanaCard.totalShown.getD 0 ∧
      (kanaCard.totalCorrect.getD 0 : ℚ) / (kanaCard.totalShown.getD 0 : ℚ) < 1 / 2 then 2
  else 3

/-- `calculateWilsonConfidence` from utils/fsrs.ts: lower bound of the Wilson
score interval on `successes / total`, clamped to `[0, 1]`, and 0 when there
are no attempts. -/
noncomputable def calculateWilsonConfidence (successes total : ℕ) (z : ℝ) : ℝ :=
  if total = 0 then 0
  else
    max 0 (min 1
      (((successes : ℝ) / (total : ℝ) + z * z / (2 * (total : ℝ)) -
          z * Real.sqrt ((successes : ℝ) / (total : ℝ) *
              (1 - (successes : ℝ) / (total : ℝ)) / (total : ℝ) +
            z * z / (4 * (total : ℝ) * (total : ℝ)))) /
        (1 + z * z / (total : ℝ))))

/-- `calculateWeight` from utils/fsrs.ts (Wilson variant): 3.0 for an absent
card; otherwise the product of the retrievability factor `1/(r + 0.1)` (1.0
when the scheduler call fails, modeled by `retr` returning `none`) and the
Wilson factor `1/(w + 0.1)`. -/
noncomputable def calculateWeight {σ : Type} (retr : σ → Option ℝ)
    (kanaCard : Option (KanaCard σ)) : ℝ :=
  match kanaCard with
  | none => 3.0
  | some c =>
    let retrievabilityWeight : ℝ :=
      match retr c.card with
      | some retrievability => 1 / (retrievability + 0.1)
      | none => 1.0
    let wilsonConfidence :=
      calculateWilsonConfidence (c.totalCorrect.getD 0) (c.totalShown.getD 0) 1.96
    let wilsonWeight := 1 / (wilsonConfidence + 0.1)
    retrievabilityWeight * wilsonWeight

/-- The single pass of `getNextKana` splitting the available kana into the
never-reviewed pool and the reviewed pool, pairing each kana with its
selection weight. -/
noncomputable def partitionCards {σ : Type} (retr : σ → Option ℝ)
    (kanaCards : String → Option (KanaCard σ)) :
    List KanaCharacter → List (KanaCharacter × ℝ) × List (KanaCharacter × ℝ)
  | [] => ([], [])
  | kana :: rest =>
    let out := partitionCards retr kanaCards rest
    match kanaCards kana.id with
    | none => ((kana, calculateWeight retr none) :: out.1, out.2)
    | some c => (out.1, (kana, calculateWeight retr (some c)) :: out.2)

/-- The pool `getNextKana` selects from: a fair-coin pick between the
never-reviewed and reviewed pools when both are non-empty, else whichever is
non-empty. -/
noncomputable def selectPool {σ : Type} (retr : σ → Option ℝ)
    (kanaCards : String → Option (KanaCard σ)) (availableKana : List KanaCharacter)
    (coin : Bool) : List (KanaCharacter × ℝ) :=
  let pools := partitionCards retr kanaCards availableKana
  if 0 < pools.1.length ∧ 0 < pools.2.length then (if coin then pools.1 else pools.2)
  else if 0 < pools.2.length then pools.2
  else if 0 < pools.1.length then pools.1
  else []

/-- Running cumulative sums of the selection weights. -/
noncomputable def cumulativeWeights (acc : ℝ) : List ℝ → List ℝ
  | [] => []
  | w :: ws => (acc + w) :: cumulativeWeights (acc + w) ws

/-- The binary-search loop of `getNextKana` over the cumulative weights. -/
noncomputable def bsearchLoop (cum : List ℝ) (random : ℝ) (left right : ℕ) : ℕ :=
  if h : left < right then
    let mid := (left + right) / 2
    if cum.getD mid 0 < random then bsearchLoop cum random (mid + 1) right
    else bsearchLoop cum random left mid
  else left
termination_by right - left
decreasing_by
  · omega
  · omega

/-- `getNextKana` from utils/fsrs.ts: `none` for an empty list, else weighted
random selection by cumulative-weight binary search over the selected pool,
with a uniform fallback when the total weight is 0. The random draws are the
parameters `coin` (new-versus-reviewed pool), `random` (weighted pick) and
`fallbackRandom` (uniform fallback). -/
noncomputable def getNextKana {σ : Type} (retr : σ → Option ℝ)
    (availableKana : List KanaCharacter) (kanaCards : String → Option (KanaCard σ))
    (coin : Bool) (random fallbackRandom : ℝ) : Option KanaCharacter :=
  if availableKana.length = 0 then none
  else
    let cardsToSelectFrom := selectPool retr kanaCards availableKana coin
    let totalWeight := (cardsToSelectFrom.map Prod.snd).sum
    if totalWeight = 0 then
      availableKana[(⌊fallbackRandom * (availableKana.length : ℝ)⌋).toNat]?
    else
      let cum := cumulativeWeights 0 (cardsToSelectFrom.map Prod.snd)
      let left := bsearchLoop cum (random * totalWeight) 0 (cum.length - 1)
      (cardsToSelectFrom[left]?).map Prod.fst

/-- Concrete kana for the selection witness. -/
def kanaW : KanaCharacter := ⟨"w", "W", [['a']]⟩

theorem mem_insertByLenDesc (r a : List Char) (l : List (List Char)) :
    a ∈ insertByLenDesc r l ↔ a = r ∨ a ∈ l := by
  induction l with
  | nil => simp [insertByLenDesc]
  | cons x xs ih =>
    simp only [insertByLenDesc]
    split
    · simp only [List.mem_cons, ih]
      tauto
    · simp only [List.mem_cons]

theorem mem_sortByLenDesc (a : List Char) (l : List (List Char)) :
    a ∈ sortByLenDesc l ↔ a ∈ l := by
  induction l with
  | nil => simp [sortByLenDesc]
  | cons x xs ih => simp [sortByLenDesc, mem_insertByLenDesc, ih]

theorem pairwise_insertByLenDesc (r : List Char) (l : List (List Char))
    (h : List.Pairwise (fun a b => b.length ≤ a.length) l) :
    List.Pairwise (fun a b => b.length ≤ a.length) (insertByLenDesc r l) := by
  induction l with
  | nil => simp [insertByLenDesc]
  | cons x xs ih =>
    rw [List.pairwise_cons] at h
    obtain ⟨hx, hxs⟩ := h
    simp only [insertByLenDesc]
    split
    · rw [List.pairwise_cons]
      refine ⟨?_, ih hxs⟩
      intro b hb
      rcases (mem_insertByLenDesc r b xs).mp hb with hb | hb
      · subst hb; omega
      · exact hx b hb
    · rw [List.pairwise_cons]
      constructor
      · intro b hb
        rcases List.mem_cons.mp hb with hb | hb
        · subst hb; omega
        · have := hx b hb; omega
      · rw [List.pairwise_cons]
        exact ⟨hx, hxs⟩

theorem pairwise_sortByLenDesc (l : List (List Char)) :
    List.Pairwise (fun a b => b.length ≤ a.length) (sortByLenDesc l) := by
  induction l with
  | nil => simp [sortByLenDesc]
  | cons x xs ih => exact pairwise_insertByLenDesc x (sortByLenDesc xs) ih

theorem firstPrefixMatch_maximal (l : List (List Char)) (s rest : List Char)
    (hsorted : List.Pairwise (fun a b => b.length ≤ a.length) l)
    (hmem : s ∈ l) (hbound : ∀ r ∈ l, r.length ≤ s.length) :
    firstPrefixMatch l (s ++ rest) = some s := by
  induction l with
  | nil => simp at hmem
  | cons x xs ih =>
    rw [List.pairwise_cons] at hsorted
    obtain ⟨hx, hxs⟩ := hsorted
    simp only [firstPrefixMatch]
    by_cases hpre : x.isPrefixOf (s ++ rest) = true
    · rw [if_pos hpre]
      have hxle : x.length ≤ s.length := hbound x (List.mem_cons_self x xs)
      have hxpre : x <+: s ++ rest := by
        rwa [List.isPrefixOf_iff_prefix] at hpre
      have hxlen : x.length = s.length := by
        rcases List.mem_cons.mp hmem with hs | hs
        · rw [hs]
        · have := hx s hs
          omega
      have hxeq : x = (s ++ rest).take x.length := List.prefix_iff_eq_take.mp hxpre
      rw [hxlen] at hxeq
      rw [List.take_left] at hxeq
      rw [hxeq]
    · rw [if_neg hpre]
      have hsx : s ≠ x := by
        intro hcon
        apply hpre
        rw [hcon] at *
        rw [List.isPrefixOf_iff_prefix]
        exact List.prefix_append x rest
      have hs : s ∈ xs := by
        rcases List.mem_cons.mp hmem with h | h
        · exact absurd h hsx
        · exact h
      exact ih hxs hs (fun r hr => hbound r (List.mem_cons_of_mem x hr))

theorem matchStep_maximal (kana : KanaCharacter) (s rest input : List Char) (idx : ℕ)
    (hmax : MaxSpelling kana s) (hdrop : input.drop idx = s ++ rest) :
    matchStep kana input idx = (true, idx + s.length) := by
  obtain ⟨hmem, hbound⟩ := hmax
  have hfind : firstPrefixMatch (sortedLowerRomaji kana) (input.drop idx) = some s := by
    rw [hdrop]
    exact firstPrefixMatch_maximal (sortedLowerRomaji kana) s rest
      (pairwise_sortByLenDesc _)
      ((mem_sortByLenDesc s _).mpr hmem)
      (fun r hr => hbound r ((mem_sortByLenDesc r _).mp hr))
  simp [matchStep, hfind]

theorem validateLoop_maximal (prompt : List KanaCharacter) (spellings : List (List Char))
    (input : List Char) (idx : ℕ)
    (hf : List.Forall₂ MaxSpelling prompt spellings)
    (hdrop : input.drop idx = spellings.flatten) :
    validateLoop prompt input idx =
      (List.replicate prompt.length true, idx + spellings.flatten.length) := by
  induction hf generalizing idx with
  | nil =>
    simp only [validateLoop, List.length_nil, List.replicate]
    simp
  | @cons kana s ks ss hks hrest ih =>
    have hdrop1 : input.drop idx = s ++ ss.flatten := by
      rw [hdrop]
      simp
    have hstep := matchStep_maximal kana s ss.flatten input idx hks hdrop1
    have hdrop2 := congrArg (List.drop s.length) hdrop1
    rw [List.drop_drop, List.drop_left] at hdrop2
    have hih := ih (idx + s.length) hdrop2
    simp only [validateLoop, hstep, hih]
    rw [Prod.mk.injEq]
    constructor
    · simp [List.replicate_succ]
    · simp only [List.flatten_cons, List.length_append]
      omega

theorem matchStep_le (kana : KanaCharacter) (input : List Char) (idx : ℕ) :
    idx ≤ (matchStep kana input idx).2 := by
  rcases h : firstPrefixMatch (sortedLowerRomaji kana) (input.drop idx) with _ | r
  · simp only [matchStep, h]
    omega
  · simp only [matchStep, h]
    omega

theorem validateLoop_le (prompt : List KanaCharacter) (input : List Char) (idx : ℕ) :
    idx ≤ (validateLoop prompt input idx).2 := by
  induction prompt generalizing idx with
  | nil => simp [validateLoop]
  | cons kana rest ih =>
    simp only [validateLoop]
    exact le_trans (matchStep_le kana input idx) (ih (matchStep kana input idx).2)

theorem validateLoop_length (prompt : List KanaCharacter) (input : List Char) (idx : ℕ) :
    (validateLoop prompt input idx).1.length = prompt.length := by
  induction prompt generalizing idx with
  | nil => simp [validateLoop]
  | cons kana rest ih =>
    simp only [validateLoop, List.length_cons]
    rw [ih]

/-- C1 (amended). The validation matcher `validateInputWithDetails` reports
`allCorrect` true iff every expected character matched at its cursor position
and the cursor consumed the entire normalized input; the `checkAnswers`
scoring path reports `allCorrect` true iff every character matched, with no
consumed-input requirement, so trailing extra characters do not fail there. -/
theorem allCorrect_characterization (prompt : List KanaCharacter) (input : List Char)
    (hprompt : prompt ≠ []) (hinput : normalize input ≠ []) :
    ((validateInputWithDetails prompt input).1 = true ↔
      ((validateLoop prompt (normalize input) 0).1.all id = true ∧
        (validateLoop prompt (normalize input) 0).2 = (normalize input).length)) ∧
    ∀ p, checkAnswers prompt input = some p →
      (p.1 = true ↔ (validateLoop prompt (normalize input) 0).1.all id = true) := by
  have h1 : ¬ prompt.length = 0 := by
    simpa [List.length_eq_zero] using hprompt
  have h2 : ¬ (normalize input).length = 0 := by
    simpa [List.length_eq_zero] using hinput
  constructor
  · simp only [validateInputWithDetails, if_neg h1, if_neg h2]
    rw [Bool.and_eq_true, decide_eq_true_eq]
  · intro p hp
    simp only [checkAnswers, if_neg h1, if_neg h2, Option.some_inj] at hp
    rw [← hp]

/-- C1 counterexample. With the single expected kana "a" and raw input "ab",
every character matches yet a trailing character remains: the `checkAnswers`
scoring path still reports `allCorrect = true` (the validation variant
reports false). -/
theorem allCorrect_trailing_counterexample :
    checkAnswers [kanaA] ['a', 'b'] = some (true, 1) ∧
    (validateInputWithDetails [kanaA] ['a', 'b']).1 = false := by
  decide

/-- C1 witness at prompt ["a"-kana] and input "a". -/
theorem allCorrect_characterization_witness :
    ((validateInputWithDetails [kanaA] ['a']).1 = true ↔
      ((validateLoop [kanaA] (normalize ['a']) 0).1.all id = true ∧
        (validateLoop [kanaA] (normalize ['a']) 0).2 = (normalize ['a']).length)) ∧
    ∀ p, checkAnswers [kanaA] ['a'] = some p →
      (p.1 = true ↔ (validateLoop [kanaA] (normalize ['a']) 0).1.all id = true) :=
  allCorrect_characterization [kanaA] ['a'] (by decide) (by decide)

/-- C2 (amended). If the input normalizes to the concatenation of one
accepted spelling per expected character in order, each of maximal length
among its character's accepted spellings, then the matcher marks every
character correct and reports `allCorrect = true`. -/
theorem concat_maximal_spellings_all_correct (prompt : List KanaCharacter)
    (spellings : List (List Char)) (input : List Char)
    (hf : List.Forall₂ MaxSpelling prompt spellings)
    (hprompt : prompt ≠ [])
    (hnorm : normalize input = spellings.flatten)
    (hjoin : spellings.flatten ≠ []) :
    validateInputWithDetails prompt input = (true, List.replicate prompt.length true) := by
  have h1 : ¬ prompt.length = 0 := by
    simpa [List.length_eq_zero] using hprompt
  have h2 : ¬ (normalize input).length = 0 := by
    rw [hnorm]
    intro hcon
    exact hjoin (List.length_eq_zero.mp hcon)
  have hloop := validateLoop_maximal prompt spellings (normalize input) 0 hf (by simpa using hnorm)
  have hall : (List.replicate prompt.length true).all id = true := by
    rw [List.all_eq_true]
    intro b hb
    rw [List.eq_of_mem_replicate hb]
    rfl
  have hlen : decide ((0 : ℕ) + spellings.flatten.length = (normalize input).length) = true := by
    rw [decide_eq_true_eq, hnorm]
    omega
  simp only [validateInputWithDetails, if_neg h1, if_neg h2, hloop]
  rw [Prod.mk.injEq]
  refine ⟨?_, rfl⟩
  rw [hall, hlen]
  rfl

/-- C2 counterexample. Expected sequence [kana with spellings "a"/"aa",
kana with spelling "a"], input "aa" built by concatenating the accepted
spelling "a" of each: greedy longest-first matching consumes "aa" for the
first character, so the second fails and `allCorrect = false`. -/
theorem concat_spellings_counterexample :
    ['a'] ∈ kanaDouble.romaji ∧ ['a'] ∈ kanaSingle.romaji ∧
    validateInputWithDetails [kanaDouble, kanaSingle] (['a'] ++ ['a']) =
      (false, [true, false]) := by
  decide

/-- C2 witness at the one-kana prompt ["a"-kana] with spelling "a". -/
theorem concat_maximal_spellings_witness :
    validateInputWithDetails [kanaA] ['a'] = (true, List.replicate 1 true) :=
  concat_maximal_spellings_all_correct [kanaA] [['a']] ['a']
    (List.Forall₂.cons ⟨by decide, by decide⟩ List.Forall₂.nil) (by decide) (by decide)
    (by decide)

/-- C8. The matcher performs exactly one matching step per expected character
(the flags list has one entry per character), the cursor never decreases, a
successful step advances the cursor by exactly the matched spelling's length,
and a failed step advances it by at least 1. -/
theorem matcher_termination (prompt : List KanaCharacter) (input : List Char) (idx : ℕ)
    (hprompt : prompt ≠ []) :
    (validateLoop prompt input idx).1.length = prompt.length ∧
    idx ≤ (validateLoop prompt input idx).2 ∧
    (∀ (kana : KanaCharacter) (i : ℕ), (matchStep kana input i).1 = true →
      ∃ r, firstPrefixMatch (sortedLowerRomaji kana) (input.drop i) = some r ∧
        (matchStep kana input i).2 = i + r.length) ∧
    (∀ (kana : KanaCharacter) (i : ℕ), (matchStep kana input i).1 = false →
      i + 1 ≤ (matchStep kana input i).2) := by
  refine ⟨validateLoop_length prompt input idx, validateLoop_le prompt input idx, ?_, ?_⟩
  · intro kana i hstep
    rcases h : firstPrefixMatch (sortedLowerRomaji kana) (input.drop i) with _ | r
    · simp [matchStep, h] at hstep
    · exact ⟨r, rfl, by simp [matchStep, h]⟩
  · intro kana i hstep
    rcases h : firstPrefixMatch (sortedLowerRomaji kana) (input.drop i) with _ | r
    · simp only [matchStep, h]
      omega
    · simp [matchStep, h] at hstep

/-- C8 witness at the one-kana prompt and input "a". -/
theorem matcher_termination_witness :
    (validateLoop [kanaA] ['a'] 0).1.length = [kanaA].length ∧
    0 ≤ (validateLoop [kanaA] ['a'] 0).2 ∧
    (∀ (kana : KanaCharacter) (i : ℕ), (matchStep kana ['a'] i).1 = true →
      ∃ r, firstPrefixMatch (sortedLowerRomaji kana) (List.drop i ['a']) = some r ∧
        (matchStep kana ['a'] i).2 = i + r.length) ∧
    (∀ (kana : KanaCharacter) (i : ℕ), (matchStep kana ['a'] i).1 = false →
      i + 1 ≤ (matchStep kana ['a'] i).2) :=
  matcher_termination [kanaA] ['a'] 0 (by decide)

theorem regeneratePrompt_preserves (t : GameState) :
    (regeneratePrompt t).playerLives = t.playerLives ∧
    (regeneratePrompt t).isGameOver = t.isGameOver ∧
    (regeneratePrompt t).combo = t.combo ∧
    (regeneratePrompt t).promptAttempt = t.promptAttempt ∧
    (regeneratePrompt t).currentEnemy = t.currentEnemy := by
  simp only [regeneratePrompt]
  split
  · exact ⟨rfl, rfl, rfl, rfl, rfl⟩
  · exact ⟨rfl, rfl, rfl, rfl, rfl⟩

theorem reachable_lives_inv (s : GameState) (hr : Reachable s) :
    0 ≤ s.playerLives ∧ (s.isGameOver = true ↔ s.playerLives = 0) := by
  induction hr with
  | init enemy => simp [initState]
  | step t ev ht ih =>
    obtain ⟨hl, hg⟩ := ih
    cases ev with
    | timerExpire =>
      simpa [applyEvent, comboTimerExpire] using ⟨hl, hg⟩
    | respawn e =>
      simp only [applyEvent, spawnNewEnemy]
      split
      · simpa using ⟨hl, hg⟩
      · exact ⟨hl, hg⟩
    | answer b =>
      simp only [applyEvent, submitAnswer]
      split
      · exact ⟨hl, hg⟩
      · rename_i hguard
        rw [not_or, not_or, not_or] at hguard
        obtain ⟨hp, hgo, hd, hw⟩ := hguard
        have hgof : t.isGameOver = false := by
          simpa using hgo
        have hlive : 1 ≤ t.playerLives := by
          rw [hgof] at hg
          simp at hg
          omega
        obtain ⟨h1, h2, h3, h4, h5⟩ :=
          regeneratePrompt_preserves
            (applyCombatResult b { t with promptAttempt := t.promptAttempt + 1 })
        rw [h1, h2]
        simp only [applyCombatResult]
        split
        · split
          · simpa using ⟨hl, hg⟩
          · simpa using ⟨hl, hg⟩
        · split
          · simpa using ⟨hl, hg⟩
          · simp only []
            constructor
            · simp
              omega
            · simp [hgof]
              constructor
              · intro hle
                omega
              · intro heq
                omega

theorem applyCombatResult_preserves (b : Bool) (t : GameState) :
    (applyCombatResult b t).promptAttempt = t.promptAttempt ∧
    (applyCombatResult b t).currentEnemy = t.currentEnemy := by
  simp only [applyCombatResult]
  split
  · split
    · exact ⟨rfl, rfl⟩
    · exact ⟨rfl, rfl⟩
  · split
    · exact ⟨rfl, rfl⟩
    · exact ⟨rfl, rfl⟩

theorem regeneratePrompt_flags (t : GameState) :
    (regeneratePrompt t).enemyDefeated = t.enemyDefeated ∧
    (regeneratePrompt t).enemyWillDie = t.enemyWillDie := by
  simp only [regeneratePrompt]
  split
  · exact ⟨rfl, rfl⟩
  · exact ⟨rfl, rfl⟩

theorem regeneratePrompt_phase (t : GameState) (hd : t.enemyDefeated = false)
    (hw : t.enemyWillDie = false) :
    (regeneratePrompt t).promptType =
      if 0 < t.promptAttempt ∧ t.promptAttempt % t.currentEnemy.attack = 0 then
        PromptType.defense
      else PromptType.attack := by
  simp [regeneratePrompt, hd, hw]

/-- C3. In every reachable combat state the player's lives stay at or above
0 and the game is over exactly when they are 0 (so reaching 0 sets
`isGameOver` on that same transition, never later); and an incorrect
defense-phase answer from a live state resets the combo to 0 and decrements
the lives by exactly 1. -/
theorem combat_life_bound :
    (∀ s : GameState, Reachable s →
      0 ≤ s.playerLives ∧ (s.isGameOver = true ↔ s.playerLives = 0)) ∧
    (∀ s : GameState, Reachable s →
      s.hasPrompt = true → s.isGameOver = false → s.enemyDefeated = false →
      s.enemyWillDie = false → s.promptType = PromptType.defense →
      (submitAnswer false s).combo = 0 ∧
      (submitAnswer false s).playerLives = s.playerLives - 1 ∧
      ((submitAnswer false s).isGameOver = true ↔ s.playerLives = 1)) := by
  refine ⟨reachable_lives_inv, ?_⟩
  intro s hr hp hg hd hw hdef
  have hinv := reachable_lives_inv s hr
  have hlive : 1 ≤ s.playerLives := by
    obtain ⟨hl, hiff⟩ := hinv
    rw [hg] at hiff
    simp at hiff
    omega
  have hguard : ¬ (s.hasPrompt = false ∨ s.isGameOver = true ∨ s.enemyDefeated = true ∨
      s.enemyWillDie = true) := by
    simp [hp, hg, hd, hw]
  simp only [submitAnswer, if_neg hguard]
  obtain ⟨h1, h2, h3, h4, h5⟩ := regeneratePrompt_preserves
    (applyCombatResult false { s with promptAttempt := s.promptAttempt + 1 })
  rw [h1, h2, h3]
  have hcond : ¬ (({ s with promptAttempt := s.promptAttempt + 1 } : GameState).promptType =
      PromptType.attack) := by
    simp [hdef]
  simp only [applyCombatResult, if_neg hcond, Bool.false_eq_true, if_false]
  refine ⟨trivial, trivial, ?_⟩
  show (if s.playerLives - 1 ≤ 0 then true else s.isGameOver) = true ↔ s.playerLives = 1
  split_ifs with hs
  · simp only [true_iff]
    omega
  · rw [hg]
    simp only [Bool.false_eq_true, false_iff]
    omega

/-- C3 witness at a concrete reachable defense-phase state with 3 lives. -/
theorem combat_life_bound_witness :
    (0 ≤ defenseStateW.playerLives ∧
      (defenseStateW.isGameOver = true ↔ defenseStateW.playerLives = 0)) ∧
    ((submitAnswer false defenseStateW).combo = 0 ∧
      (submitAnswer false defenseStateW).playerLives = defenseStateW.playerLives - 1 ∧
      ((submitAnswer false defenseStateW).isGameOver = true ↔ defenseStateW.playerLives = 1)) := by
  have h := combat_life_bound
  have hr : Reachable defenseStateW :=
    Reachable.step _ (GameEvent.answer false)
      (Reachable.step _ (GameEvent.answer false) (Reachable.init enemyW))
  exact ⟨h.1 defenseStateW hr,
    h.2 defenseStateW hr (by decide) (by decide) (by decide) (by decide) (by decide)⟩

/-- C5. An accepted answer submission increments the attempt counter by
exactly 1; when a new prompt is generated on that same transition its phase
is defense iff the new counter is positive and divisible by the current
enemy's attack threshold; and a prompt generated after a respawn is an attack
prompt with the counter reset to 0. -/
theorem attempt_counter_phase (s : GameState) (b : Bool)
    (hp : s.hasPrompt = true) (hg : s.isGameOver = false)
    (hd : s.enemyDefeated = false) (hw : s.enemyWillDie = false) :
    (submitAnswer b s).promptAttempt = s.promptAttempt + 1 ∧
    ((submitAnswer b s).enemyDefeated = false → (submitAnswer b s).enemyWillDie = false →
      ((submitAnswer b s).promptType = PromptType.defense ↔
        (0 < s.promptAttempt + 1 ∧
          (s.promptAttempt + 1) % s.currentEnemy.attack = 0))) ∧
    ∀ e : EnemyStats, (submitAnswer b s).enemyDefeated = true →
      (spawnNewEnemy e (submitAnswer b s)).promptAttempt = 0 ∧
      (spawnNewEnemy e (submitAnswer b s)).promptType = PromptType.attack := by
  have hguard : ¬ (s.hasPrompt = false ∨ s.isGameOver = true ∨ s.enemyDefeated = true ∨
      s.enemyWillDie = true) := by
    simp [hp, hg, hd, hw]
  have hsub : submitAnswer b s =
      regeneratePrompt (applyCombatResult b { s with promptAttempt := s.promptAttempt + 1 }) := by
    simp only [submitAnswer, if_neg hguard]
  obtain ⟨hca, hce⟩ := applyCombatResult_preserves b { s with promptAttempt := s.promptAttempt + 1 }
  obtain ⟨hr1, hr2, hr3, hr4, hr5⟩ := regeneratePrompt_preserves
    (applyCombatResult b { s with promptAttempt := s.promptAttempt + 1 })
  obtain ⟨hf1, hf2⟩ := regeneratePrompt_flags
    (applyCombatResult b { s with promptAttempt := s.promptAttempt + 1 })
  refine ⟨?_, ?_, ?_⟩
  · rw [hsub, hr4, hca]
  · intro hdf hwf
    rw [hsub] at hdf hwf ⊢
    rw [hf1] at hdf
    rw [hf2] at hwf
    rw [regeneratePrompt_phase _ hdf hwf, hca, hce]
    show (if 0 < s.promptAttempt + 1 ∧ (s.promptAttempt + 1) % s.currentEnemy.attack = 0
        then PromptType.defense else PromptType.attack) = PromptType.defense ↔
      (0 < s.promptAttempt + 1 ∧ (s.promptAttempt + 1) % s.currentEnemy.attack = 0)
    split_ifs with hc
    · exact iff_of_true rfl hc
    · exact iff_of_false (by decide) hc
  · intro e hde
    rw [hsub] at hde ⊢
    simp [spawnNewEnemy, hde]

/-- C5 witness at the initial state with `enemyW` (attack threshold 2). -/
theorem attempt_counter_phase_witness :
    (submitAnswer false (initState enemyW)).promptAttempt =
      (initState enemyW).promptAttempt + 1 ∧
    ((submitAnswer false (initState enemyW)).enemyDefeated = false →
      (submitAnswer false (initState enemyW)).enemyWillDie = false →
      ((submitAnswer false (initState enemyW)).promptType = PromptType.defense ↔
        (0 < (initState enemyW).promptAttempt + 1 ∧
          ((initState enemyW).promptAttempt + 1) % (initState enemyW).currentEnemy.attack = 0))) ∧
    ∀ e : EnemyStats, (submitAnswer false (initState enemyW)).enemyDefeated = true →
      (spawnNewEnemy e (submitAnswer false (initState enemyW))).promptAttempt = 0 ∧
      (spawnNewEnemy e (submitAnswer false (initState enemyW))).promptType = PromptType.attack :=
  attempt_counter_phase (initState enemyW) false rfl rfl rfl rfl

/-- C4 counterexample. Health 10 is attainable from a uniform draw but
neither 11 nor 20 is: the generated health range is 5 to 10, not 5 to 20. -/
theorem enemy_health_range_counterexample :
    healthAttainable 10 ∧ ¬ healthAttainable 11 ∧ ¬ healthAttainable 20 := by
  refine ⟨⟨5 / 6, by norm_num, by norm_num, by norm_num [generateNewEnemy]⟩, ?_, ?_⟩
  · rintro ⟨r, h0, h1, he⟩
    simp only [generateNewEnemy] at he
    have hfl : (6 : ℤ) ≤ ⌊r * 6⌋ := by omega
    have h6 : ((6 : ℤ) : ℚ) ≤ r * 6 := Int.le_floor.mp hfl
    push_cast at h6
    linarith
  · rintro ⟨r, h0, h1, he⟩
    simp only [generateNewEnemy] at he
    have hfl : (15 : ℤ) ≤ ⌊r * 6⌋ := by omega
    have h6 : ((15 : ℤ) : ℚ) ≤ r * 6 := Int.le_floor.mp hfl
    push_cast at h6
    linarith

/-- C4 (amended). For uniform draws in `[0, 1)` the generated enemy has
health in 5..10 (each value hit exactly on an interval of length 1/6, so the
draw is uniform over 5..10), an integer attack threshold in 2..4 (hence at
least 1), and every spawn replaces the current enemy wholesale with the
freshly generated value. -/
theorem enemy_stats_ranges (r1 r2 : ℚ) (h10 : 0 ≤ r1) (h11 : r1 < 1)
    (h20 : 0 ≤ r2) (h21 : r2 < 1) :
    (5 ≤ (generateNewEnemy r1 r2).health ∧ (generateNewEnemy r1 r2).health ≤ 10) ∧
    (2 ≤ (generateNewEnemy r1 r2).attack ∧ (generateNewEnemy r1 r2).attack ≤ 4) ∧
    1 ≤ (generateNewEnemy r1 r2).attack ∧
    (∀ h : ℤ, 5 ≤ h → h ≤ 10 →
      ((generateNewEnemy r1 r2).health = h ↔
        ((h : ℚ) - 5) / 6 ≤ r1 ∧ r1 < ((h : ℚ) - 4) / 6)) ∧
    (∀ (e : EnemyStats) (s : GameState), s.enemyDefeated = true →
      (spawnNewEnemy e s).currentEnemy = e) := by
  have hh : (generateNewEnemy r1 r2).health = ⌊r1 * 6⌋ + 5 := rfl
  have ha : (generateNewEnemy r1 r2).attack = ⌊r2 * 3⌋ + 2 := rfl
  have hf1 : (0 : ℤ) ≤ ⌊r1 * 6⌋ := Int.floor_nonneg.mpr (by positivity)
  have hf2 : ⌊r1 * 6⌋ < 6 := Int.floor_lt.mpr (by push_cast; linarith)
  have hg1 : (0 : ℤ) ≤ ⌊r2 * 3⌋ := Int.floor_nonneg.mpr (by positivity)
  have hg2 : ⌊r2 * 3⌋ < 3 := Int.floor_lt.mpr (by push_cast; linarith)
  refine ⟨⟨?_, ?_⟩, ⟨?_, ?_⟩, ?_, ?_, ?_⟩
  · rw [hh]; omega
  · rw [hh]; omega
  · rw [ha]; omega
  · rw [ha]; omega
  · rw [ha]; omega
  · intro h hl hr
    rw [hh]
    rw [show (⌊r1 * 6⌋ + 5 = h) ↔ (⌊r1 * 6⌋ = h - 5) by omega]
    rw [Int.floor_eq_iff]
    constructor
    · rintro ⟨hm1, hm2⟩
      push_cast at hm1 hm2 ⊢
      constructor <;> linarith
    · rintro ⟨hm1, hm2⟩
      push_cast at hm1 hm2 ⊢
      constructor <;> linarith
  · intro e s hde
    simp [spawnNewEnemy, hde]

/-- C4 witness at the draws `r1 = 0`, `r2 = 0`. -/
theorem enemy_stats_ranges_witness :
    (5 ≤ (generateNewEnemy 0 0).health ∧ (generateNewEnemy 0 0).health ≤ 10) ∧
    (2 ≤ (generateNewEnemy 0 0).attack ∧ (generateNewEnemy 0 0).attack ≤ 4) ∧
    1 ≤ (generateNewEnemy 0 0).attack ∧
    (∀ h : ℤ, 5 ≤ h → h ≤ 10 →
      ((generateNewEnemy 0 0).health = h ↔
        ((h : ℚ) - 5) / 6 ≤ 0 ∧ (0 : ℚ) < ((h : ℚ) - 4) / 6)) ∧
    (∀ (e : EnemyStats) (s : GameState), s.enemyDefeated = true →
      (spawnNewEnemy e s).currentEnemy = e) :=
  enemy_stats_ranges 0 0 (by norm_num) (by norm_num) (by norm_num) (by norm_num)

/-- C6. The grade `reviewKana` sends to the external scheduler is exactly the
specification's rule: again (1) whenever the answer is incorrect; when
correct, easy (4) if `timesShown ≥ 3` and accuracy at least 0.8, hard (2) if
`timesShown ≥ 3` and accuracy below 0.5, and good (3) in every other case,
including `timesShown < 3`. -/
theorem review_grade_matches_spec :
    ∀ (σ : Type) (c : KanaCard σ) (b : Bool) (f : σ → ℤ → ℕ → σ) (now : ℤ),
    reviewGrade c b = gradeSpec c b ∧
    (reviewKana f c b now).card = f c.card now (reviewGrade c b) := by
  intro σ c b f now
  refine ⟨?_, rfl⟩
  cases b with
  | false => rfl
  | true =>
    simp only [reviewGrade, gradeSpec, getPerformanceHistory]
    by_cases h3 : c.totalShown.getD 0 < 3
    · rw [if_pos h3]
      have hn3 : ¬ (3 ≤ c.totalShown.getD 0) := by omega
      simp [hn3]
    · rw [if_neg h3]
      have h3' : 3 ≤ c.totalShown.getD 0 := by omega
      by_cases hhi : (4 : ℚ) / 5 ≤ (c.totalCorrect.getD 0 : ℚ) / (c.totalShown.getD 0 : ℚ)
      · simp [hhi, h3']
      · rw [if_neg hhi]
        by_cases hlo : (c.totalCorrect.getD 0 : ℚ) / (c.totalShown.getD 0 : ℚ) < 1 / 2
        · simp [hlo, hhi, h3']
          split_ifs <;> rfl
        · simp [hlo, hhi, h3']
          split_ifs <;> rfl

/-- C7. `reviewKana` increments `timesShown` by exactly 1, increments
`timesCorrect` by 1 on a correct answer and 0 otherwise, and preserves the
invariant `timesCorrect ≤ timesShown`. -/
theorem review_ledger_monotone :
    ∀ (σ : Type) (f : σ → ℤ → ℕ → σ) (c : KanaCard σ) (b : Bool) (now : ℤ),
    (reviewKana f c b now).totalShown.getD 0 = c.totalShown.getD 0 + 1 ∧
    (reviewKana f c b now).totalCorrect.getD 0 =
      c.totalCorrect.getD 0 + (if b then 1 else 0) ∧
    (c.totalCorrect.getD 0 ≤ c.totalShown.getD 0 →
      (reviewKana f c b now).totalCorrect.getD 0 ≤ (reviewKana f c b now).totalShown.getD 0) := by
  intro σ f c b now
  refine ⟨rfl, rfl, ?_⟩
  intro hle
  cases b with
  | false =>
    simp only [reviewKana, Option.getD_some, Bool.false_eq_true, if_false]
    omega
  | true =>
    simp only [reviewKana, Option.getD_some, if_true]
    omega

/-- C9. The Wilson lower-confidence-bound with `z = 1.96` returns exactly 0
for 0 attempts, and for 10 successes out of 10 attempts returns a value
strictly between 0.65 and 1. -/
theorem wilson_confidence_bounds :
    calculateWilsonConfidence 0 0 1.96 = 0 ∧
    0.65 < calculateWilsonConfidence 10 10 1.96 ∧
    calculateWilsonConfidence 10 10 1.96 < 1 := by
  have h0 : calculateWilsonConfidence 0 0 1.96 = 0 := by
    simp [calculateWilsonConfidence]
  have key : Real.sqrt (((10 : ℕ) : ℝ) / ((10 : ℕ) : ℝ) *
      (1 - ((10 : ℕ) : ℝ) / ((10 : ℕ) : ℝ)) / ((10 : ℕ) : ℝ) +
      (1.96 : ℝ) * 1.96 / (4 * ((10 : ℕ) : ℝ) * ((10 : ℕ) : ℝ))) = 1.96 / 20 := by
    rw [show ((10 : ℕ) : ℝ) / ((10 : ℕ) : ℝ) * (1 - ((10 : ℕ) : ℝ) / ((10 : ℕ) : ℝ)) /
        ((10 : ℕ) : ℝ) + (1.96 : ℝ) * 1.96 / (4 * ((10 : ℕ) : ℝ) * ((10 : ℕ) : ℝ)) =
        ((1.96 : ℝ) / 20) ^ 2 by push_cast; ring]
    exact Real.sqrt_sq (by norm_num)
  have hval : calculateWilsonConfidence 10 10 1.96 = 6250 / 8651 := by
    simp only [calculateWilsonConfidence, if_neg (by norm_num : ¬ (10 : ℕ) = 0)]
    rw [key]
    rw [min_def, max_def]
    norm_num
  refine ⟨h0, ?_, ?_⟩
  · rw [hval]
    norm_num
  · rw [hval]
    norm_num

theorem wilson_nonneg (successes total : ℕ) (z : ℝ) :
    0 ≤ calculateWilsonConfidence successes total z := by
  unfold calculateWilsonConfidence
  split
  · exact le_refl 0
  · exact le_max_left 0 _

theorem calculateWeight_pos {σ : Type} (retr : σ → Option ℝ)
    (hretr : ∀ (st : σ) (r : ℝ), retr st = some r → 0 ≤ r)
    (kanaCard : Option (KanaCard σ)) :
    0 < calculateWeight retr kanaCard := by
  cases kanaCard with
  | none =>
    simp only [calculateWeight]
    norm_num
  | some c =>
    simp only [calculateWeight]
    have hw : 0 ≤ calculateWilsonConfidence (c.totalCorrect.getD 0) (c.totalShown.getD 0) 1.96 :=
      wilson_nonneg _ _ _
    have h2 : 0 < 1 /
        (calculateWilsonConfidence (c.totalCorrect.getD 0) (c.totalShown.getD 0) 1.96 + 0.1) := by
      positivity
    rcases hcase : retr c.card with _ | r
    · simp only [hcase]
      have h10 : (1.0 : ℝ) = 1 := by norm_num
      rw [h10, one_mul]
      exact h2
    · simp only [hcase]
      have hr := hretr c.card r hcase
      have h1 : (0 : ℝ) < 1 / (r + 0.1) := by positivity
      exact mul_pos h1 h2

theorem partitionCards_pos {σ : Type} (retr : σ → Option ℝ)
    (kanaCards : String → Option (KanaCard σ))
    (hretr : ∀ (st : σ) (r : ℝ), retr st = some r → 0 ≤ r)
    (l : List KanaCharacter) (p : KanaCharacter × ℝ) :
    (p ∈ (partitionCards retr kanaCards l).1 → 0 < p.2) ∧
    (p ∈ (partitionCards retr kanaCards l).2 → 0 < p.2) := by
  induction l with
  | nil =>
    simp [partitionCards]
  | cons kana rest ih =>
    simp only [partitionCards]
    rcases hcase : kanaCards kana.id with _ | c
    · simp only [hcase]
      constructor
      · intro hp
        rcases List.mem_cons.mp hp with hp | hp
        · rw [hp]
          exact calculateWeight_pos retr hretr none
        · exact ih.1 hp
      · exact ih.2
    · simp only [hcase]
      constructor
      · exact ih.1
      · intro hp
        rcases List.mem_cons.mp hp with hp | hp
        · rw [hp]
          exact calculateWeight_pos retr hretr (some c)
        · exact ih.2 hp

theorem partitionCards_length {σ : Type} (retr : σ → Option ℝ)
    (kanaCards : String → Option (KanaCard σ)) (l : List KanaCharacter) :
    (partitionCards retr kanaCards l).1.length + (partitionCards retr kanaCards l).2.length =
      l.length := by
  induction l with
  | nil => simp [partitionCards]
  | cons kana rest ih =>
    simp only [partitionCards]
    rcases hcase : kanaCards kana.id with _ | c
    · simp only [hcase, List.length_cons]
      omega
    · simp only [hcase, List.length_cons]
      omega

theorem selectPool_spec {σ : Type} (retr : σ → Option ℝ)
    (kanaCards : String → Option (KanaCard σ)) (availableKana : List KanaCharacter)
    (coin : Bool)
    (hretr : ∀ (st : σ) (r : ℝ), retr st = some r → 0 ≤ r)
    (hne : availableKana ≠ []) :
    selectPool retr kanaCards availableKana coin ≠ [] ∧
    ∀ p ∈ selectPool retr kanaCards availableKana coin, 0 < p.2 := by
  have hlen := partitionCards_length retr kanaCards availableKana
  have hpos := fun p => partitionCards_pos retr kanaCards hretr availableKana p
  have hlne : 0 < availableKana.length := List.length_pos.mpr hne
  simp only [selectPool]
  split_ifs with h1 hcoin h2 h3
  · refine ⟨?_, fun p hp => (hpos p).1 hp⟩
    intro hcon
    rw [hcon] at h1
    simp at h1
  · refine ⟨?_, fun p hp => (hpos p).2 hp⟩
    intro hcon
    rw [hcon] at h1
    simp at h1
  · refine ⟨?_, fun p hp => (hpos p).2 hp⟩
    intro hcon
    rw [hcon] at h2
    simp at h2
  · refine ⟨?_, fun p hp => (hpos p).1 hp⟩
    intro hcon
    rw [hcon] at h3
    simp at h3
  · exfalso
    omega

theorem cumulativeWeights_length (acc : ℝ) (l : List ℝ) :
    (cumulativeWeights acc l).length = l.length := by
  induction l generalizing acc with
  | nil => rfl
  | cons w ws ih =>
    simp only [cumulativeWeights, List.length_cons]
    rw [ih]

theorem bsearchLoop_le (cum : List ℝ) (random : ℝ) :
    ∀ (n left right : ℕ), right - left ≤ n → left ≤ right →
      bsearchLoop cum random left right ≤ right := by
  intro n
  induction n with
  | zero =>
    intro left right h1 h2
    rw [bsearchLoop]
    rw [dif_neg (by omega : ¬ left < right)]
    omega
  | succ n ih =>
    intro left right h1 h2
    rw [bsearchLoop]
    by_cases hlt : left < right
    · rw [dif_pos hlt]
      show (if cum.getD ((left + right) / 2) 0 < random then
          bsearchLoop cum random ((left + right) / 2 + 1) right
        else bsearchLoop cum random left ((left + right) / 2)) ≤ right
      split_ifs with hcmp
      · exact ih ((left + right) / 2 + 1) right (by omega) (by omega)
      · exact le_trans (ih left ((left + right) / 2) (by omega) (by omega)) (by omega)
    · rw [dif_neg hlt]
      omega

/-- C10. Every selection weight is strictly positive (3.0 for an absent card,
a product of positive factors otherwise, given the scheduler's retrievability
contract), so the total weight of the selected pool is strictly positive, the
zero-total-weight uniform fallback of `getNextKana` is unreachable, and
`getNextKana` returns some character for every non-empty available list. -/
theorem weighted_selection_total (σ : Type) (retr : σ → Option ℝ)
    (availableKana : List KanaCharacter) (kanaCards : String → Option (KanaCard σ))
    (coin : Bool) (random fallbackRandom : ℝ)
    (hne : availableKana ≠ [])
    (hretr : ∀ (st : σ) (r : ℝ), retr st = some r → 0 ≤ r) :
    (∀ c : Option (KanaCard σ), 0 < calculateWeight retr c) ∧
    0 < ((selectPool retr kanaCards availableKana coin).map Prod.snd).sum ∧
    (getNextKana retr availableKana kanaCards coin random fallbackRandom).isSome = true := by
  obtain ⟨hpne, hppos⟩ := selectPool_spec retr kanaCards availableKana coin hretr hne
  have hsum : 0 < ((selectPool retr kanaCards availableKana coin).map Prod.snd).sum := by
    apply List.sum_pos
    · intro x hx
      rcases List.mem_map.mp hx with ⟨p, hp, hpx⟩
      rw [← hpx]
      exact hppos p hp
    · intro hcon
      exact hpne (List.map_eq_nil_iff.mp hcon)
  refine ⟨calculateWeight_pos retr hretr, hsum, ?_⟩
  have hlne : ¬ availableKana.length = 0 := by
    simpa [List.length_eq_zero] using hne
  simp only [getNextKana]
  rw [if_neg hlne, if_neg (ne_of_gt hsum)]
  have hplen : 0 < (selectPool retr kanaCards availableKana coin).length :=
    List.length_pos.mpr hpne
  have hclen : (cumulativeWeights 0
      ((selectPool retr kanaCards availableKana coin).map Prod.snd)).length =
      (selectPool retr kanaCards availableKana coin).length := by
    rw [cumulativeWeights_length, List.length_map]
  have hleft := bsearchLoop_le
    (cumulativeWeights 0 ((selectPool retr kanaCards availableKana coin).map Prod.snd))
    (random * ((selectPool retr kanaCards availableKana coin).map Prod.snd).sum)
    ((cumulativeWeights 0 ((selectPool retr kanaCards availableKana coin).map Prod.snd)).length - 1)
    0
    ((cumulativeWeights 0 ((selectPool retr kanaCards availableKana coin).map Prod.snd)).length - 1)
    (by omega) (by omega)
  have hidx : bsearchLoop
      (cumulativeWeights 0 ((selectPool retr kanaCards availableKana coin).map Prod.snd))
      (random * ((selectPool retr kanaCards availableKana coin).map Prod.snd).sum) 0
      ((cumulativeWeights 0 ((selectPool retr kanaCards availableKana coin).map Prod.snd)).length - 1) <
      (selectPool retr kanaCards availableKana coin).length := by
    omega
  rw [List.getElem?_eq_getElem hidx]
  rfl

/-- C10 witness: a single never-reviewed kana with no scheduler state. -/
theorem weighted_selection_total_witness :
    (∀ c : Option (KanaCard Unit), 0 < calculateWeight (fun _ => none) c) ∧
    0 < ((selectPool (fun _ : Unit => none) (fun _ => none) [kanaW] true).map Prod.snd).sum ∧
    (getNextKana (fun _ : Unit => none) [kanaW] (fun _ => none) true 0 0).isSome = true :=
  weighted_selection_total Unit (fun _ => none) [kanaW] (fun _ => none) true 0 0
    (by simp) (fun st r hr => by simp at hr)

end KanaSpec
